import Mathlib

/-!
Verification development for the operator-repo library.

The definitions below are a shallow embedding of the code in
src/operator_repo/core.py (the Bundle/Operator resource model, version
ordering, channel computation and the update-graph builder) and
src/operator_repo/checks/__init__.py (the check engine).  Python strings
become Lean Strings, Python dicts and sets become association lists and
dedup-on-insert lists (iteration order of Python sets/dicts is fixed to
list order; all claims proved below are insensitive to that order), and
Python exceptions become an explicit error type threaded through Except.
-/

/-- Python str.split(c, 1): split at the first occurrence of a character.
Returns none when the character does not occur (in which case the Python
two-variable unpacking raises ValueError). -/
def splitOnceAux (c : Char) : List Char → Option (List Char × List Char)
  | [] => none
  | x :: xs =>
    if x = c then some ([], xs)
    else (splitOnceAux c xs).map (fun p => (x :: p.1, p.2))

def splitOnce (s : String) (c : Char) : Option (String × String) :=
  (splitOnceAux c s.data).map (fun p => (String.mk p.1, String.mk p.2))

/-- Python str.split(c) for a one-character separator (structural version of
String.splitOn, which does not reduce in the kernel). -/
def splitCharAux (c : Char) : List Char → List Char → List (List Char)
  | [], acc => [acc.reverse]
  | x :: xs, acc =>
    if x = c then acc.reverse :: splitCharAux c xs []
    else splitCharAux c xs (x :: acc)

def splitChar (s : String) (c : Char) : List String :=
  (splitCharAux c s.data []).map String.mk

/-- Python str.strip(): remove leading and trailing whitespace. -/
def pyStrip (s : String) : String :=
  String.mk (((s.data.dropWhile Char.isWhitespace).reverse.dropWhile Char.isWhitespace).reverse)

/-- Python str.lstrip("v"): remove every leading v character. -/
def lstripV (s : String) : String := String.mk (s.data.dropWhile (fun c => c = 'v'))

/-- Value of a list of decimal digit characters. -/
def digitsVal (l : List Char) : Nat := l.foldl (fun n c => 10 * n + (c.toNat - 48)) 0

/-- The numeric components of a semantic version: 0|[1-9][0-9]* (no leading
zeros), as in the regular expression used by the Python semver library. -/
def parseNumeric (s : String) : Option Nat :=
  match s.data with
  | [] => none
  | c :: cs =>
    if (c :: cs).all Char.isDigit && (c ≠ '0' || cs.isEmpty) then
      some (digitsVal (c :: cs))
    else none

/-- Characters allowed in prerelease/build identifiers: [0-9A-Za-z-]. -/
def isIdentChar (c : Char) : Bool := c.isDigit || c.isAlpha || c = '-'

/-- A prerelease identifier: either numeric (no leading zeros) or
alphanumeric, as in the semver grammar 0|[1-9][0-9]*|[0-9]*[A-Za-z-][0-9A-Za-z-]*.
Numeric identifiers are represented as Sum.inl, alphanumeric as Sum.inr. -/
def parsePreId (s : String) : Option (Nat ⊕ String) :=
  match s.data with
  | [] => none
  | c :: cs =>
    if (c :: cs).all Char.isDigit then
      if c = '0' && !cs.isEmpty then none else some (Sum.inl (digitsVal (c :: cs)))
    else if (c :: cs).all isIdentChar then some (Sum.inr s)
    else none

/-- A build identifier: [0-9A-Za-z-]+ (leading zeros allowed). -/
def parseBuildId (s : String) : Option String :=
  match s.data with
  | [] => none
  | c :: cs => if (c :: cs).all isIdentChar then some s else none

/-- A parsed semantic version, as produced by semver.Version.parse. -/
structure Semver where
  major : Nat
  minor : Nat
  patch : Nat
  prerelease : List (Nat ⊕ String)
  build : List String
deriving DecidableEq

/-- semver.Version.parse: major.minor.patch with optional -prerelease and
+build parts.  The build part starts at the first +; the prerelease part
starts at the first - before that; each part is validated against the
semver grammar.  Returns none exactly when the Python parser raises
ValueError. -/
def parseSemver (s : String) : Option Semver :=
  let cb : String × Option String :=
    match splitOnce s '+' with
    | none => (s, none)
    | some p => (p.1, some p.2)
  let np : String × Option String :=
    match splitOnce cb.1 '-' with
    | none => (cb.1, none)
    | some p => (p.1, some p.2)
  match splitChar np.1 '.' with
  | [ma, mi, pa] =>
    match parseNumeric ma, parseNumeric mi, parseNumeric pa with
    | some major, some minor, some patch =>
      match (match np.2 with
             | none => some []
             | some p => (splitChar p '.').mapM parsePreId) with
      | none => none
      | some prerelease =>
        match (match cb.2 with
               | none => some []
               | some b => (splitChar b '.').mapM parseBuildId) with
        | none => none
        | some build => some ⟨major, minor, patch, prerelease, build⟩
    | _, _, _ => none
  | _ => none

/-- Comparison key for semver precedence.  Build metadata is ignored (as in
the semver spec and the Python library).  A version without prerelease
sorts after one with a prerelease (Bool component: false < true), and
prerelease identifier lists compare lexicographically with numeric
identifiers below alphanumeric ones (Sum.Lex) and a strict prefix below
its extensions (List lex order). -/
def Semver.key (v : Semver) : Lex (Nat × Lex (Nat × Lex (Nat × Lex (Bool × List (Nat ⊕ₗ List Char))))) :=
  toLex (v.major, toLex (v.minor, toLex (v.patch,
    toLex (v.prerelease.isEmpty,
      v.prerelease.map (fun i => (toLex (Sum.map id String.data i) : Nat ⊕ₗ List Char))))))

/-- Strict semver precedence, Version < Version in Python. -/
def svLtB (a b : Semver) : Bool := decide (a.key < b.key)

/-- Non-strict semver precedence. -/
def svLeB (a b : Semver) : Bool := decide (a.key ≤ b.key)

/-- Version == Version in Python semver: equal precedence (build ignored). -/
def svEqB (a b : Semver) : Bool := svLeB a b && svLeB b a

example : parseSemver "1.2.3" = some ⟨1, 2, 3, [], []⟩ := by decide
example : parseSemver "0.0.1" = some ⟨0, 0, 1, [], []⟩ := by decide
example : parseSemver "01.2.3" = none := by decide
example : parseSemver "1.2" = none := by decide
example : parseSemver "1.2.3.4" = none := by decide
example : parseSemver "1.2.3-alpha.1+b.01" =
    some ⟨1, 2, 3, [Sum.inr "alpha", Sum.inl 1], ["b", "01"]⟩ := by decide
example : parseSemver "1.2.3-01" = none := by decide
example : parseSemver "1.2.3-" = none := by decide
example : svLtB ⟨1, 0, 0, [Sum.inr "alpha"], []⟩ ⟨1, 0, 0, [], []⟩ = true := by decide
example : svLtB ⟨0, 0, 1, [], []⟩ ⟨0, 0, 2, [], []⟩ = true := by decide
example : svEqB ⟨1, 0, 0, [], ["b1"]⟩ ⟨1, 0, 0, [], ["b2"]⟩ = true := by decide

/-- Python exceptions raised by the modelled code paths. -/
inductive PyErr where
  | invalidBundle (msg : String)
  | valueError (msg : String)
  | notImplemented (msg : String)
  | indexError
deriving DecidableEq

/-- An operator bundle (core.py, class Bundle), with the on-disk content the
modelled operations consume already loaded: the filesystem position
(parent directory name and directory name), the CSV .metadata.name field,
the two annotation values, and the CSV spec.replaces / spec.skips fields. -/
structure Bundle where
  operator_name : String
  operator_version : String
  csv_metadata_name : String
  ann_channels : Option String
  ann_default_channel : Option String
  spec_replaces : Option String
  spec_skips : List String
deriving DecidableEq

/-- repr(bundle): f-string rendering used in error messages. -/
def reprBundle (b : Bundle) : String :=
  "Bundle(" ++ b.operator_name ++ "/" ++ b.operator_version ++ ")"

/-- Bundle.csv_full_name: split .metadata.name at the first dot into
operator name and version, stripping every leading v from the version
(str.lstrip strips all matching characters).  A name without a dot makes
the two-variable unpacking raise, re-raised as InvalidBundleException. -/
def Bundle.csvFullName (b : Bundle) : Except PyErr (String × String) :=
  match splitOnce b.csv_metadata_name '.' with
  | none =>
    Except.error (PyErr.invalidBundle ("CSV for " ++ reprBundle b ++ " has invalid .metadata.name"))
  | some p => Except.ok (p.1, lstripV p.2)

/-- Total projection of Bundle.csv_operator_name.  The source raises
InvalidBundleException when .metadata.name has no dot; theorems that rely
on this projection carry the corresponding well-formedness hypothesis. -/
def Bundle.csvOperatorNameD (b : Bundle) : String :=
  match b.csvFullName with
  | Except.ok p => p.1
  | Except.error _ => ""

/-- Total projection of Bundle.csv_operator_version (see csvOperatorNameD). -/
def Bundle.csvOperatorVersionD (b : Bundle) : String :=
  match b.csvFullName with
  | Except.ok p => p.2
  | Except.error _ => ""

/-- Bundle.channels: the comma-separated channel-membership annotation,
each element stripped, collected into a set (modelled as a deduplicated
list; only membership is consumed).  Missing annotation: empty set. -/
def Bundle.channels (b : Bundle) : List String :=
  match b.ann_channels with
  | none => []
  | some s => ((splitChar s ',').map pyStrip).dedup

/-- Bundle.default_channel: the default-channel annotation, stripped;
none when the annotation is missing. -/
def Bundle.defaultChannel (b : Bundle) : Option String :=
  b.ann_default_channel.map pyStrip

/-- Bundle.__lt__ (for two Bundle operands): order by CSV operator name
when the names differ; otherwise parse both versions (after lstrip of v)
as semver and compare; when either parse raises ValueError fall back to
lexical comparison of the (unstripped) version strings. -/
def Bundle.ltB (a b : Bundle) : Bool :=
  if a.csvOperatorNameD ≠ b.csvOperatorNameD then
    decide (a.csvOperatorNameD.data < b.csvOperatorNameD.data)
  else
    match parseSemver (lstripV a.csvOperatorVersionD), parseSemver (lstripV b.csvOperatorVersionD) with
    | some va, some vb => svLtB va vb
    | _, _ => decide (a.csvOperatorVersionD.data < b.csvOperatorVersionD.data)

/-- Bundle.__eq__ (for two Bundle operands): false when the CSV operator
names differ; otherwise semver equality of the parsed versions, falling
back to string equality when either parse raises ValueError. -/
def Bundle.eqB (a b : Bundle) : Bool :=
  if a.csvOperatorNameD ≠ b.csvOperatorNameD then false
  else
    match parseSemver (lstripV a.csvOperatorVersionD), parseSemver (lstripV b.csvOperatorVersionD) with
    | some va, some vb => svEqB va vb
    | _, _ => decide (a.csvOperatorVersionD = b.csvOperatorVersionD)

/-- The sort predicate induced by Bundle.__lt__ under Python sorted
(stable; a sorted output never has a later element less than an earlier
one). -/
def Bundle.leB (a b : Bundle) : Bool := ! Bundle.ltB b a

/-- Bundle.__hash__ hashes the tuple (operator_name, operator_version)
taken from the filesystem position.  Modelled at the key level: Python
applies the builtin tuple hash to exactly this pair. -/
def pyHashKey (b : Bundle) : String × String := (b.operator_name, b.operator_version)

/-- Python set/dict key identity for Bundle elements: same hash bucket
(equal hash keys) and __eq__. -/
def pyKeyMatch (a b : Bundle) : Bool := pyHashKey a = pyHashKey b && Bundle.eqB a b

/-- Python set insertion: keep the existing element when an element with
the same key identity is already present. -/
def pySetInsert (acc : List Bundle) (b : Bundle) : List Bundle :=
  if acc.any (fun x => pyKeyMatch x b) then acc else acc ++ [b]

/-- Python set(list-of-bundles), iteration order fixed to first-insertion
order. -/
def pyDedup (l : List Bundle) : List Bundle := l.foldl pySetInsert []

/-- An operator (core.py, class Operator): its directory name, the bundles
enumerated by all_bundles() in enumeration order, and the updateGraph
value from its ci.yaml configuration (none when absent). -/
structure Operator where
  operator_name : String
  bundles : List Bundle
  config_update_graph : Option String
deriving DecidableEq

/-- Operator.channel_bundles: sorted set of the bundles whose channels
contain the given channel.  Python sorted is a stable merge sort driven
by Bundle.__lt__. -/
def Operator.channelBundles (o : Operator) (channel : String) : List Bundle :=
  (pyDedup (o.bundles.filter (fun b => b.channels.contains channel))).mergeSort Bundle.leB

/-- Operator.head: [-1] indexing of the channel bundle list; Python raises
IndexError on an empty list, otherwise yields the last element. -/
def Operator.head (o : Operator) (channel : String) : Except PyErr Bundle :=
  match (o.channelBundles channel).getLast? with
  | none => Except.error PyErr.indexError
  | some b => Except.ok b

/-- The bundles of the operator that declare a default channel (the list
comprehension filter in Operator.default_channel). -/
def Operator.declaring (o : Operator) : List Bundle :=
  o.bundles.filter (fun b => b.ann_default_channel.isSome)

/-- The declared default channel of a bundle, as a plain string (used only
on bundles that declare one). -/
def dchanStr (b : Bundle) : String := (Bundle.defaultChannel b).getD ""

/-- Python tuple (Version, str) comparison: lexicographic, with Version
compared by semver precedence (build ignored). -/
def svPairLe (p q : Semver × String) : Bool :=
  decide ((toLex (p.1.key, p.2.data)) ≤ (toLex (q.1.key, q.2.data)))

/-- Python tuple (str, str) comparison: lexicographic. -/
def strPairLe (p q : String × String) : Bool :=
  decide ((toLex (p.1.data, p.2.data)) ≤ (toLex (q.1.data, q.2.data)))

/-- Operator.default_channel: build (version, declared-channel) pairs for
all bundles declaring a default channel, parsing versions as semver; if
any parse raises ValueError, rebuild the pairs with plain version strings
instead.  Return the channel of the last pair of the sorted list, or none
when the list is empty (IndexError caught).  The source can also raise
InvalidBundleException while reading csv_operator_version of a bundle
whose .metadata.name has no dot; theorems about this function restrict to
well-formed bundles, where the total projection used here agrees with the
source. -/
def Operator.defaultChannel (o : Operator) : Option String :=
  if o.declaring.all (fun b => (parseSemver b.csvOperatorVersionD).isSome) then
    let pairs := o.declaring.filterMap
      (fun b => (parseSemver b.csvOperatorVersionD).map (fun v => (v, dchanStr b)))
    ((pairs.mergeSort svPairLe).getLast?).map Prod.snd
  else
    let pairs := o.declaring.map (fun b => (b.csvOperatorVersionD, dchanStr b))
    ((pairs.mergeSort strPairLe).getLast?).map Prod.snd

/-- The update graph: a dict mapping each replaced bundle to the set of
bundles that can replace it (keys in insertion order, values as
insertion-ordered sets). -/
abbrev Graph := List (Bundle × List Bundle)

/-- edges.setdefault(k, set()).add(v): dict lookup is by Bundle key
identity (hash and __eq__). -/
def graphAdd (g : Graph) (k v : Bundle) : Graph :=
  match g with
  | [] => [(k, [v])]
  | e :: rest =>
    if pyKeyMatch e.1 k then (e.1, pySetInsert e.2 v) :: rest
    else e :: graphAdd rest k v

/-- Insertion into the version_to_bundle dict (string keys; a later binding
for the same key overwrites the earlier one). -/
def dictInsertStr (d : List (String × Bundle)) (k : String) (v : Bundle) : List (String × Bundle) :=
  match d with
  | [] => [(k, v)]
  | e :: rest => if e.1 = k then (k, v) :: rest else e :: dictInsertStr rest k v

/-- version_to_bundle = dict keyed by csv_operator_version over the bundle
set. -/
def buildVersionIndex (l : List Bundle) : List (String × Bundle) :=
  l.foldl (fun d b => dictInsertStr d b.csvOperatorVersionD b) []

def indexFind (d : List (String × Bundle)) (k : String) : Option Bundle :=
  (d.find? (fun e => e.1 = k)).map Prod.snd

/-- The candidate previous-version references of a bundle:
set(spec.skips) | spec.replaces.  Modelled as a list; duplicate
processing is idempotent, so dropping the set construction is harmless. -/
def Bundle.previousRefs (b : Bundle) : List (Option String) :=
  b.spec_skips.map some ++ [b.spec_replaces]

/-- The ValueError message for a reference without a dot (the Python
f-string wraps the reference in single quotes, omitted here). -/
def fmtBadRef (b : Bundle) (r : String) : String :=
  reprBundle b ++ " has invalid replaces field: " ++ r

/-- The ValueError message for a cross-operator reference. -/
def fmtCrossOp (b : Bundle) : String :=
  reprBundle b ++ " replaces a bundle from a different operator"

/-- The body of the reference loop of Operator._replaces_graph for one
reference: skip None; a reference without a dot raises ValueError; a
reference naming a different operator raises ValueError; a version with no
entry in the index raises KeyError, silently swallowed; otherwise add the
edge replaced-bundle -> replacing-bundle when both carry the channel. -/
def processRef (channel : String) (v2b : List (String × Bundle)) (b : Bundle)
    (edges : Graph) : Option String → Except PyErr Graph
  | none => Except.ok edges
  | some r =>
    match splitOnce r '.' with
    | none => Except.error (PyErr.valueError (fmtBadRef b r))
    | some p =>
      if p.1 ≠ b.csvOperatorNameD then
        Except.error (PyErr.valueError (fmtCrossOp b))
      else
        match indexFind v2b (lstripV p.2) with
        | none => Except.ok edges
        | some replaced =>
          if b.channels.contains channel && replaced.channels.contains channel then
            Except.ok (graphAdd edges replaced b)
          else Except.ok edges

def processRefs (channel : String) (v2b : List (String × Bundle)) (b : Bundle) :
    List (Option String) → Graph → Except PyErr Graph
  | [], edges => Except.ok edges
  | r :: rest, edges =>
    match processRef channel v2b b edges r with
    | Except.error e => Except.error e
    | Except.ok e2 => processRefs channel v2b b rest e2

def processBundles (channel : String) (v2b : List (String × Bundle)) :
    List Bundle → Graph → Except PyErr Graph
  | [], edges => Except.ok edges
  | b :: rest, edges =>
    match processRefs channel v2b b b.previousRefs edges with
    | Except.error e => Except.error e
    | Except.ok e2 => processBundles channel v2b rest e2

/-- Operator._replaces_graph. -/
def replacesGraph (channel : String) (bundles : List Bundle) : Except PyErr Graph :=
  let bset := pyDedup bundles
  processBundles channel (buildVersionIndex bset) bset []

/-- The semver-mode dict comprehension: one binding per consecutive pair of
the sorted channel bundle list (a duplicate key would overwrite). -/
def dictInsertB (g : Graph) (k : Bundle) (v : List Bundle) : Graph :=
  match g with
  | [] => [(k, v)]
  | e :: rest => if pyKeyMatch e.1 k then (k, v) :: rest else e :: dictInsertB rest k v

def semverModeGraph (l : List Bundle) : Graph :=
  (l.zip l.tail).foldl (fun g p => dictInsertB g p.1 [p.2]) []

/-- Operator.update_graph: collect the channel bundles, read the strategy
(default replaces-mode), compute the set of CSV operator names (this is
where a malformed .metadata.name raises InvalidBundleException), reject
more than one name, then dispatch on the strategy; an unknown strategy
raises NotImplementedError. -/
def Operator.updateGraph (o : Operator) (channel : String) : Except PyErr Graph :=
  let l := o.channelBundles channel
  let strat := o.config_update_graph.getD "replaces-mode"
  match l.mapM Bundle.csvFullName with
  | Except.error e => Except.error e
  | Except.ok pairs =>
    if ((pairs.map Prod.fst).dedup).length > 1 then
      Except.error (PyErr.valueError
        ("Operator(" ++ o.operator_name ++ ") has bundles with different operator names"))
    else if strat = "semver-mode" then Except.ok (semverModeGraph l)
    else if strat = "replaces-mode" then replacesGraph channel l
    else
      Except.error (PyErr.notImplemented
        ("Operator(" ++ o.operator_name ++ "): unsupported updateGraph value: " ++ strat))

/-- A resource a check runs against (Repo / Operator / Bundle). -/
inductive Target where
  | repo (name : String)
  | op (o : Operator)
  | bdl (b : Bundle)
deriving DecidableEq

/-- checks/__init__.py, class CheckResult with its Ok / Warn / Fail
subclasses: severity 0 success, 40 warning, 90 error; the check, origin
and suite fields start as None when authored inside a rule and are
stamped by the engine. -/
structure CheckResult where
  severity : Nat
  kind : String
  check : Option String
  origin : Option Target
  reason : String
  suite : Option String
deriving DecidableEq

def mkOk (reason check_name : String) (target : Target) (suite_name : String) : CheckResult :=
  ⟨0, "success", some check_name, some target, reason, some suite_name⟩

def mkFail (reason check_name : String) (target : Target) (suite_name : String) : CheckResult :=
  ⟨90, "error", some check_name, some target, reason, some suite_name⟩

/-- The observable behaviour of one Python rule generator on one target:
the finite list of results it yields, then optionally an uncaught
exception (its message).  A rule that raises before yielding anything has
results = [] and raises = some msg. -/
structure RuleRun where
  results : List CheckResult
  raises : Option String
deriving DecidableEq

/-- traceback.format_exc(): the full diagnostic text; it contains the
exception message. -/
def formatExc (msg : String) : String :=
  "Traceback (most recent call last):" ++ "\n" ++ "Exception: " ++ msg ++ "\n"

/-- The engine stamping of a result yielded by a rule: result.check,
result.origin and result.suite are overwritten before the result is
yielded on. -/
def stampResult (check_name : String) (target : Target) (suite_name : String)
    (r : CheckResult) : CheckResult :=
  { r with check := some check_name, origin := some target, suite := some suite_name }

/-- run_check (checks/__init__.py): iterate the rule, stamping and
yielding every result; when the iteration completes without any result,
synthesize one Ok("Success"); when the rule raises, catch the exception
and yield one Fail(traceback.format_exc()) instead (skipping the success
synthesis).  The engine itself never raises. -/
def runCheck (check_name : String) (run : RuleRun) (target : Target)
    (suite_name : String) : List CheckResult :=
  match run.raises with
  | some msg =>
    run.results.map (stampResult check_name target suite_name)
      ++ [mkFail (formatExc msg) check_name target suite_name]
  | none =>
    if run.results.isEmpty then [mkOk "Success" check_name target suite_name]
    else run.results.map (stampResult check_name target suite_name)

/-- run_suite: fan every target out against the rules applicable to its
kind.  The discovery and isinstance dispatch of get_checks/run_suite is
abstracted into checksFor, the per-target list of (rule name, rule
behaviour) pairs; the nested loops then concatenate the run_check streams. -/
def runSuite (checksFor : Target → List (String × (Target → RuleRun)))
    (targets : List Target) (suite_name : String) : List CheckResult :=
  targets.flatMap (fun t => (checksFor t).flatMap (fun c => runCheck c.1 (c.2 t) t suite_name))

deriving instance DecidableEq for Except

/-- Unfolding of run_check when the rule raises. -/
lemma runCheck_raises (check_name : String) (run : RuleRun) (t : Target) (s msg : String)
    (h : run.raises = some msg) :
    runCheck check_name run t s
      = run.results.map (stampResult check_name t s) ++ [mkFail (formatExc msg) check_name t s] := by
  unfold runCheck
  rw [h]

/-- Unfolding of run_check when the rule completes without results. -/
lemma runCheck_no_results (check_name : String) (run : RuleRun) (t : Target) (s : String)
    (h : run.raises = none) (h2 : run.results = []) :
    runCheck check_name run t s = [mkOk "Success" check_name t s] := by
  unfold runCheck
  rw [h, h2]
  rfl

/-- Unfolding of run_check when the rule completes with results. -/
lemma runCheck_with_results (check_name : String) (run : RuleRun) (t : Target) (s : String)
    (h : run.raises = none) (h2 : run.results ≠ []) :
    runCheck check_name run t s = run.results.map (stampResult check_name t s) := by
  unfold runCheck
  rw [h, if_neg]
  simp [List.isEmpty_iff, h2]

/-- Every result yielded by run_check carries the stamped rule name,
resource and suite, whether it came from the rule, the success synthesis
or the exception interception. -/
lemma runCheck_fields (check_name : String) (run : RuleRun) (t : Target) (s : String) :
    ∀ r ∈ runCheck check_name run t s,
      r.check = some check_name ∧ r.origin = some t ∧ r.suite = some s := by
  intro r hr
  cases hrs : run.raises with
  | some msg =>
    rw [runCheck_raises check_name run t s msg hrs] at hr
    rcases List.mem_append.mp hr with h | h
    · rcases List.mem_map.mp h with ⟨x, _, hx⟩
      subst hx
      exact ⟨rfl, rfl, rfl⟩
    · rcases List.mem_singleton.mp h with rfl
      exact ⟨rfl, rfl, rfl⟩
  | none =>
    by_cases he : run.results = []
    · rw [runCheck_no_results check_name run t s hrs he] at hr
      rcases List.mem_singleton.mp hr with rfl
      exact ⟨rfl, rfl, rfl⟩
    · rw [runCheck_with_results check_name run t s hrs he] at hr
      rcases List.mem_map.mp hr with ⟨x, _, hx⟩
      subst hx
      exact ⟨rfl, rfl, rfl⟩

/-- run_check always yields at least one result. -/
lemma runCheck_ne_nil (check_name : String) (run : RuleRun) (t : Target) (s : String) :
    runCheck check_name run t s ≠ [] := by
  cases hrs : run.raises with
  | some msg =>
    rw [runCheck_raises check_name run t s msg hrs]
    simp
  | none =>
    by_cases he : run.results = []
    · rw [runCheck_no_results check_name run t s hrs he]
      simp
    · rw [runCheck_with_results check_name run t s hrs he]
      simp [he]

/-- Claim C1: run_check on a (rule, resource) pair where the rule raises
before yielding anything intercepts the exception and yields exactly one
error-severity result whose reason (the traceback text) contains the
exception message; on a rule that yields nothing it yields exactly one
success-severity result; and in a suite run every (rule, resource) pair
contributes at least one result stamped with that rule and resource, so a
raising rule never suppresses the output of other rules or resources (the
engine itself is a total function and never propagates the exception). -/
theorem C1_engine_fault_isolation
    (check_name : String) (t : Target) (s msg : String)
    (checksFor : Target → List (String × (Target → RuleRun))) (targets : List Target) :
    runCheck check_name ⟨[], some msg⟩ t s = [mkFail (formatExc msg) check_name t s] ∧
    (mkFail (formatExc msg) check_name t s).kind = "error" ∧
    (mkFail (formatExc msg) check_name t s).severity = 90 ∧
    (∃ p q, (mkFail (formatExc msg) check_name t s).reason = p ++ msg ++ q) ∧
    runCheck check_name ⟨[], none⟩ t s = [mkOk "Success" check_name t s] ∧
    (mkOk "Success" check_name t s).kind = "success" ∧
    (mkOk "Success" check_name t s).severity = 0 ∧
    (∀ t' ∈ targets, ∀ c ∈ checksFor t',
      ∃ r ∈ runSuite checksFor targets s, r.check = some c.1 ∧ r.origin = some t') := by
  refine ⟨rfl, rfl, rfl, ⟨"Traceback (most recent call last):" ++ "\n" ++ "Exception: ", "\n", rfl⟩,
    rfl, rfl, rfl, ?_⟩
  intro t' ht' c hc
  obtain ⟨r, hr⟩ := List.exists_mem_of_ne_nil _ (runCheck_ne_nil c.1 (c.2 t') t' s)
  obtain ⟨h1, h2, _⟩ := runCheck_fields c.1 (c.2 t') t' s r hr
  refine ⟨r, ?_, h1, h2⟩
  exact List.mem_flatMap.mpr ⟨t', ht', List.mem_flatMap.mpr ⟨c, hc, hr⟩⟩

theorem C1_engine_fault_isolation_witness :
    (runCheck "check_example" ⟨[], some "bar"⟩ (Target.repo "community") "operator_repo.checks"
      = [mkFail (formatExc "bar") "check_example" (Target.repo "community") "operator_repo.checks"]) ∧
    (∃ r ∈ runSuite (fun _ => [("check_example", fun _ => ⟨[], some "bar"⟩)])
        [Target.repo "community"] "operator_repo.checks",
      r.check = some "check_example" ∧ r.origin = some (Target.repo "community")) := by
  have h := C1_engine_fault_isolation "check_example" (Target.repo "community")
    "operator_repo.checks" "bar"
    (fun _ => [("check_example", fun _ => ⟨[], some "bar"⟩)]) [Target.repo "community"]
  refine ⟨h.1, ?_⟩
  have h8 := h.2.2.2.2.2.2.2
  exact h8 (Target.repo "community") (by simp) ("check_example", fun _ => ⟨[], some "bar"⟩) (by simp)

/-- Claim C9: when a rule yields some results and then raises, run_check
yields exactly the stamped prior results followed by one error-severity
result wrapping the traceback, and synthesizes no success result (the
output length is the number of rule results plus one). -/
theorem C9_partial_results_preserved
    (check_name : String) (t : Target) (s msg : String) (results : List CheckResult)
    (h : results ≠ []) :
    runCheck check_name ⟨results, some msg⟩ t s
      = results.map (stampResult check_name t s) ++ [mkFail (formatExc msg) check_name t s] ∧
    (∀ r ∈ results.map (stampResult check_name t s),
      r.check = some check_name ∧ r.origin = some t ∧ r.suite = some s) ∧
    (mkFail (formatExc msg) check_name t s).kind = "error" ∧
    (mkFail (formatExc msg) check_name t s).severity = 90 ∧
    (runCheck check_name ⟨results, some msg⟩ t s).length = results.length + 1 := by
  refine ⟨rfl, ?_, rfl, rfl, ?_⟩
  · intro r hr
    rcases List.mem_map.mp hr with ⟨x, _, hx⟩
    subst hx
    exact ⟨rfl, rfl, rfl⟩
  · show (results.map (stampResult check_name t s) ++ [_]).length = _
    simp

theorem C9_partial_results_preserved_witness :
    ([(⟨40, "warning", none, none, "too many channels", none⟩ : CheckResult)] ≠ ([] : List CheckResult)) ∧
    runCheck "check_example" ⟨[⟨40, "warning", none, none, "too many channels", none⟩], some "boom"⟩
        (Target.repo "community") "operator_repo.checks"
      = [stampResult "check_example" (Target.repo "community") "operator_repo.checks"
          ⟨40, "warning", none, none, "too many channels", none⟩,
         mkFail (formatExc "boom") "check_example" (Target.repo "community") "operator_repo.checks"] := by
  constructor
  · simp
  · have h := C9_partial_results_preserved "check_example" (Target.repo "community")
      "operator_repo.checks" "boom" [⟨40, "warning", none, none, "too many channels", none⟩]
      (by simp)
    exact h.1

/-- Two bundles loaded from different filesystem directories (versions
1.0.0 and v1.0.0 of the same operator) whose CSV declares the same
name and version: __eq__ true, hashes differ. -/
def bundleFsA : Bundle := ⟨"myop", "1.0.0", "myop.v1.0.0", none, none, none, []⟩

def bundleFsB : Bundle := ⟨"myop", "v1.0.0", "myop.v1.0.0", none, none, none, []⟩

/-- Two bundles at the same filesystem position (e.g. in two different
repo checkouts) whose CSVs declare different operator names: __eq__
false, hashes equal. -/
def bundleCsvA : Bundle := ⟨"myop", "1.0.0", "myop.v1.0.0", none, none, none, []⟩

def bundleCsvB : Bundle := ⟨"myop", "1.0.0", "otherop.v1.0.0", none, none, none, []⟩

/-- Claim C8: Bundle.__hash__ is computed from the filesystem-derived
(operator_name, operator_version) pair while __eq__ compares the
CSV-derived operator name and version, so equal bundles can have
different hash keys and unequal bundles can share a hash key (Python
hashes exactly the key tuple, so distinct tuples of short distinct
strings hash differently); hash-equality consistency is violated. -/
theorem C8_hash_eq_inconsistency :
    Bundle.eqB bundleFsA bundleFsB = true ∧ pyHashKey bundleFsA ≠ pyHashKey bundleFsB ∧
    Bundle.eqB bundleCsvA bundleCsvB = false ∧ pyHashKey bundleCsvA = pyHashKey bundleCsvB := by
  refine ⟨by decide, by decide, by decide, rfl⟩

/-- Claim C10: for every operator and channel name with no member bundles
(in particular any channel the operator does not define), Operator.head
indexes the last element of the empty sorted list and raises IndexError,
rather than a domain error or an absent value. -/
theorem C10_head_empty_channel (o : Operator) (channel : String)
    (h : ∀ b ∈ o.bundles, b.channels.contains channel = false) :
    o.head channel = Except.error PyErr.indexError := by
  have hfilter : o.bundles.filter (fun b => b.channels.contains channel) = [] := by
    rw [List.filter_eq_nil_iff]
    intro b hb
    simp only [Bool.not_eq_true]
    exact h b hb
  unfold Operator.head Operator.channelBundles
  rw [hfilter]
  rw [show pyDedup [] = [] from rfl, List.mergeSort_nil]
  rfl

theorem C10_head_empty_channel_witness :
    (∀ b ∈ (Operator.mk "myop" [⟨"myop", "0.0.1", "myop.v0.0.1", some "alpha,beta", none, none, []⟩] none).bundles,
      b.channels.contains "stable" = false) ∧
    (Operator.mk "myop" [⟨"myop", "0.0.1", "myop.v0.0.1", some "alpha,beta", none, none, []⟩] none).head "stable"
      = Except.error PyErr.indexError := by
  refine ⟨by decide, ?_⟩
  exact C10_head_empty_channel _ "stable" (by decide)

/-- The head of dropWhile does not satisfy the predicate. -/
lemma head_dropWhile_false {α : Type} (p : α → Bool) :
    ∀ (l : List α) (c : α), (l.dropWhile p).head? = some c → p c = false := by
  intro l
  induction l with
  | nil => intro c hc; simp at hc
  | cons x xs ih =>
    intro c hc
    rw [List.dropWhile_cons] at hc
    by_cases hx : p x = true
    · rw [if_pos hx] at hc
      exact ih c hc
    · rw [if_neg hx] at hc
      simp at hc
      subst hc
      exact Bool.not_eq_true _ |>.mp hx

/-- dropWhile is the identity on a list whose head fails the predicate. -/
lemma dropWhile_eq_self_of_head {α : Type} (p : α → Bool) (l : List α)
    (h : ∀ c, l.head? = some c → p c = false) : l.dropWhile p = l := by
  cases l with
  | nil => rfl
  | cons x xs =>
    rw [List.dropWhile_cons, if_neg]
    rw [h x rfl]
    simp

/-- Bundles with a well-formed CSV name: projection equations. -/
lemma csvOperatorNameD_of_ok {b : Bundle} {n v : String}
    (h : b.csvFullName = Except.ok (n, v)) : b.csvOperatorNameD = n := by
  unfold Bundle.csvOperatorNameD
  rw [h]

lemma csvOperatorVersionD_of_ok {b : Bundle} {n v : String}
    (h : b.csvFullName = Except.ok (n, v)) : b.csvOperatorVersionD = v := by
  unfold Bundle.csvOperatorVersionD
  rw [h]

/-- Claim C5: for two bundles of the same operator (equal CSV operator
names) whose CSV version strings both parse as semantic versions, the
Bundle comparison operators agree with semantic-version precedence; when
either string fails to parse, both operators fall back to lexical string
comparison of the raw version strings.  The embedding is a total
function: the ValueError raised by the parser is caught inside __lt__ and
__eq__ (the fallback branch), so comparison never raises. -/
theorem C5_version_ordering (a b : Bundle) (n va vb : String)
    (ha : a.csvFullName = Except.ok (n, va)) (hb : b.csvFullName = Except.ok (n, vb)) :
    (∀ sa sb : Semver,
      parseSemver (lstripV va) = some sa → parseSemver (lstripV vb) = some sb →
      (Bundle.ltB a b = svLtB sa sb ∧ Bundle.eqB a b = svEqB sa sb)) ∧
    ((parseSemver (lstripV va) = none ∨ parseSemver (lstripV vb) = none) →
      (Bundle.ltB a b = decide (va.data < vb.data) ∧ Bundle.eqB a b = decide (va = vb))) := by
  have hna := csvOperatorNameD_of_ok ha
  have hnb := csvOperatorNameD_of_ok hb
  have hva := csvOperatorVersionD_of_ok ha
  have hvb := csvOperatorVersionD_of_ok hb
  constructor
  · intro sa sb hsa hsb
    constructor
    · unfold Bundle.ltB
      rw [hna, hnb, hva, hvb, hsa, hsb]
      simp
    · unfold Bundle.eqB
      rw [hna, hnb, hva, hvb, hsa, hsb]
      simp
  · intro hcase
    rcases h1 : parseSemver (lstripV va) with _ | sa <;>
      rcases h2 : parseSemver (lstripV vb) with _ | sb
    · constructor
      · unfold Bundle.ltB
        rw [hna, hnb, hva, hvb, h1, h2]
        simp
      · unfold Bundle.eqB
        rw [hna, hnb, hva, hvb, h1, h2]
        simp
    · constructor
      · unfold Bundle.ltB
        rw [hna, hnb, hva, hvb, h1, h2]
        simp
      · unfold Bundle.eqB
        rw [hna, hnb, hva, hvb, h1, h2]
        simp
    · constructor
      · unfold Bundle.ltB
        rw [hna, hnb, hva, hvb, h1, h2]
        simp
      · unfold Bundle.eqB
        rw [hna, hnb, hva, hvb, h1, h2]
        simp
    · rcases hcase with hc | hc
      · rw [h1] at hc; exact absurd hc (by simp)
      · rw [h2] at hc; exact absurd hc (by simp)

theorem C5_version_ordering_witness :
    Bundle.ltB ⟨"myop", "0.0.1", "myop.v0.0.1", none, none, none, []⟩
        ⟨"myop", "0.0.2", "myop.v0.0.2", none, none, none, []⟩
      = svLtB ⟨0, 0, 1, [], []⟩ ⟨0, 0, 2, [], []⟩ ∧
    Bundle.ltB ⟨"myop", "1.0.0", "myop.1.0.0", none, none, none, []⟩
        ⟨"myop", "x.y", "myop.x.y", none, none, none, []⟩
      = decide (("1.0.0" : String).data < ("x.y" : String).data) := by
  constructor
  · exact ((C5_version_ordering _ _ "myop" "0.0.1" "0.0.2" (by decide) (by decide)).1
      ⟨0, 0, 1, [], []⟩ ⟨0, 0, 2, [], []⟩ (by decide) (by decide)).1
  · exact ((C5_version_ordering _ _ "myop" "1.0.0" "x.y" (by decide) (by decide)).2
      (Or.inr (by decide))).1

/-- The version-stripping behaviour the spec claims (strip exactly one
leading v), written from the spec words for comparison with the
implementation, which uses str.lstrip("v"). -/
def specSingleVStrip (s : String) : String :=
  match s.data with
  | 'v' :: rest => String.mk rest
  | _ => s

/-- A bundle whose CSV version part starts with two v characters. -/
def bundleDoubleV : Bundle := ⟨"myop", "vv1.0.0", "myop.vv1.0.0", none, none, none, []⟩

/-- Claim C7 counterexample: on CSV .metadata.name myop.vv1.0.0 the claim
predicts the derived version v1.0.0 (one leading v stripped, the second
retained); the implementation uses str.lstrip("v"), which strips every
leading v, and derives 1.0.0. -/
theorem C7_counterexample_strip :
    Bundle.csvFullName bundleDoubleV = Except.ok ("myop", "1.0.0") ∧
    specSingleVStrip "vv1.0.0" = "v1.0.0" ∧
    Bundle.csvFullName bundleDoubleV ≠ Except.ok ("myop", specSingleVStrip "vv1.0.0") := by
  exact ⟨by decide, by decide, by decide⟩

/-- Claim C7 amended: version handling strips ALL leading v characters
(str.lstrip("v")), not exactly one: the version component derived from a
CSV .metadata.name of the form name.version is the version part with
every leading v removed (so it never starts with v), and the comparison
code re-strips the already-stripped string, which is a no-op. -/
theorem C7_amended_strip_all (b : Bundle) (n raw : String)
    (h : splitOnce b.csv_metadata_name '.' = some (n, raw)) :
    Bundle.csvFullName b = Except.ok (n, lstripV raw) ∧
    (∃ k, raw.data = List.replicate k 'v' ++ (lstripV raw).data) ∧
    (∀ c, (lstripV raw).data.head? = some c → c ≠ 'v') ∧
    lstripV (lstripV raw) = lstripV raw := by
  refine ⟨?_, ?_, ?_, ?_⟩
  · unfold Bundle.csvFullName
    rw [h]
  · refine ⟨(raw.data.takeWhile (fun c => c = 'v')).length, ?_⟩
    conv_lhs => rw [← List.takeWhile_append_dropWhile (p := fun c => c = 'v') (l := raw.data)]
    have : raw.data.takeWhile (fun c => c = 'v')
        = List.replicate (raw.data.takeWhile (fun c => c = 'v')).length 'v' := by
      rw [List.eq_replicate_iff]
      refine ⟨rfl, ?_⟩
      intro x hx
      have := List.mem_takeWhile_imp hx
      simpa using this
    rw [← this]
    rfl
  · intro c hc
    have := head_dropWhile_false (fun c => c = 'v') raw.data c hc
    simpa using this
  · unfold lstripV
    congr 1
    apply dropWhile_eq_self_of_head
    intro c hc
    exact head_dropWhile_false (fun c => c = 'v') raw.data c hc

theorem C7_amended_strip_all_witness :
    splitOnce "myop.vv1.0.0" '.' = some ("myop", "vv1.0.0") ∧
    Bundle.csvFullName bundleDoubleV = Except.ok ("myop", lstripV "vv1.0.0") ∧
    (∃ k, ("vv1.0.0" : String).data = List.replicate k 'v' ++ (lstripV "vv1.0.0").data) := by
  have h := C7_amended_strip_all bundleDoubleV "myop" "vv1.0.0" (by decide)
  exact ⟨by decide, h.1, h.2.1⟩

/-- Inserting a fresh key into a dict appends the binding. -/
lemma dictInsertB_append (g : Graph) (k : Bundle) (v : List Bundle)
    (h : ∀ e ∈ g, pyKeyMatch e.1 k = false) : dictInsertB g k v = g ++ [(k, v)] := by
  induction g with
  | nil => rfl
  | cons e rest ih =>
    unfold dictInsertB
    have hc : ¬ (pyKeyMatch e.1 k = true) := by
      rw [h e (List.mem_cons_self e rest)]
      simp
    rw [if_neg hc, ih (fun x hx => h x (List.mem_cons_of_mem e hx))]
    rfl

/-- Folding dict insertions of pairwise-fresh keys over a dict that does
not contain any of them appends the bindings in order. -/
lemma foldl_insertPairs (ps : List (Bundle × Bundle)) (g : Graph)
    (hg : ∀ e ∈ g, ∀ p ∈ ps, pyKeyMatch e.1 p.1 = false)
    (hps : ps.Pairwise (fun p q => pyKeyMatch p.1 q.1 = false)) :
    ps.foldl (fun acc p => dictInsertB acc p.1 [p.2]) g
      = g ++ ps.map (fun p => (p.1, [p.2])) := by
  induction ps generalizing g with
  | nil => simp
  | cons p rest ih =>
    rw [List.foldl_cons,
      dictInsertB_append g p.1 [p.2] (fun e he => hg e he p (List.mem_cons_self p rest))]
    obtain ⟨hp1, hp2⟩ := List.pairwise_cons.mp hps
    rw [ih (g ++ [(p.1, [p.2])]) ?_ hp2]
    · simp
    · intro e he q hq
      rcases List.mem_append.mp he with h1 | h1
      · exact hg e h1 q (List.mem_cons_of_mem p hq)
      · rcases List.mem_singleton.mp h1 with rfl
        exact hp1 q hq

/-- The keys of the consecutive-pair zip form a sublist of the original
list. -/
lemma zip_tail_fst_sublist : ∀ (l : List Bundle), ((l.zip l.tail).map Prod.fst).Sublist l := by
  intro l
  induction l with
  | nil => simp
  | cons x xs ih =>
    cases xs with
    | nil => simp
    | cons y rest =>
      simp only [List.tail_cons, List.zip_cons_cons, List.map_cons]
      exact List.Sublist.cons₂ x (by simpa using ih)

/-- The semver-mode dict comprehension over a list with pairwise distinct
keys yields exactly one binding per consecutive pair. -/
lemma semverModeGraph_eq (l : List Bundle) (h : l.Pairwise (fun a b => pyKeyMatch a b = false)) :
    semverModeGraph l = (l.zip l.tail).map (fun p => (p.1, [p.2])) := by
  unfold semverModeGraph
  rw [foldl_insertPairs _ [] (by simp) ?_]
  · simp
  · have hsub := zip_tail_fst_sublist l
    have hpw := List.Pairwise.sublist hsub h
    rw [List.pairwise_map] at hpw
    exact hpw

/-- Unfolding of update_graph on a channel whose bundles all have
well-formed CSV names and agree on the operator name, under semver-mode. -/
lemma updateGraph_semver_eq (o : Operator) (channel : String) (pairs : List (String × String))
    (hstrat : o.config_update_graph = some "semver-mode")
    (hwf : (o.channelBundles channel).mapM Bundle.csvFullName = Except.ok pairs)
    (hone : ((pairs.map Prod.fst).dedup).length ≤ 1) :
    o.updateGraph channel = Except.ok (semverModeGraph (o.channelBundles channel)) := by
  unfold Operator.updateGraph
  dsimp only
  rw [hwf, hstrat]
  simp only [Option.getD_some]
  rw [if_neg (by omega)]
  simp

/-- Three bundles of a semver-mode operator, versions 0.0.1 / 0.0.2 /
0.0.3, all in channel stable. -/
def bSem1 : Bundle := ⟨"testop", "0.0.1", "testop.v0.0.1", some "stable", none, none, []⟩

def bSem2 : Bundle := ⟨"testop", "0.0.2", "testop.v0.0.2", some "stable", none, none, []⟩

def bSem3 : Bundle := ⟨"testop", "0.0.3", "testop.v0.0.3", some "stable", none, none, []⟩

def opSemverEx : Operator := ⟨"testop", [bSem1, bSem2, bSem3], some "semver-mode"⟩

lemma chanOpSemverEx : Operator.channelBundles opSemverEx "stable" = [bSem1, bSem2, bSem3] := by
  unfold Operator.channelBundles
  rw [show pyDedup (List.filter (fun b => b.channels.contains "stable") opSemverEx.bundles)
      = [bSem1, bSem2, bSem3] from by decide]
  exact List.mergeSort_of_sorted (by decide)

/-- Claim C4: in semver-mode, update_graph sorts the channel members by
version and returns exactly one edge per consecutive pair, mapping
bundle i to the singleton set containing bundle i+1 (stated for channel
bundle lists whose filesystem keys are pairwise distinct, which holds for
any directory enumeration, and whose CSV names are well-formed and agree
on one operator name, which update_graph checks before dispatching); in
particular on a channel with versions 0.0.1, 0.0.2, 0.0.3 it returns the
two edges 0.0.1 to 0.0.2 and 0.0.2 to 0.0.3. -/
theorem C4_semver_mode (o : Operator) (channel : String) (pairs : List (String × String))
    (hstrat : o.config_update_graph = some "semver-mode")
    (hwf : (o.channelBundles channel).mapM Bundle.csvFullName = Except.ok pairs)
    (hone : ((pairs.map Prod.fst).dedup).length ≤ 1)
    (hkeys : (o.channelBundles channel).Pairwise (fun a b => pyKeyMatch a b = false)) :
    o.updateGraph channel
      = Except.ok (((o.channelBundles channel).zip (o.channelBundles channel).tail).map
          (fun p => (p.1, [p.2]))) ∧
    Operator.updateGraph opSemverEx "stable"
      = Except.ok [(bSem1, [bSem2]), (bSem2, [bSem3])] := by
  constructor
  · rw [updateGraph_semver_eq o channel pairs hstrat hwf hone]
    exact congrArg Except.ok (semverModeGraph_eq _ hkeys)
  · have h2 := updateGraph_semver_eq opSemverEx "stable"
      [("testop", "0.0.1"), ("testop", "0.0.2"), ("testop", "0.0.3")] rfl
      (by rw [chanOpSemverEx]; decide) (by decide)
    rw [h2, chanOpSemverEx]
    decide

theorem C4_semver_mode_witness :
    Operator.updateGraph opSemverEx "stable"
      = Except.ok (((Operator.channelBundles opSemverEx "stable").zip
          (Operator.channelBundles opSemverEx "stable").tail).map (fun p => (p.1, [p.2]))) := by
  exact (C4_semver_mode opSemverEx "stable"
    [("testop", "0.0.1"), ("testop", "0.0.2"), ("testop", "0.0.3")] rfl
    (by rw [chanOpSemverEx]; decide) (by decide)
    (by rw [chanOpSemverEx]; decide)).1

/-- Symmetry of Lean-level string equality tests. -/
lemma strBeq_symm (s t : String) : (s == t) = (t == s) := by
  by_cases h : s = t
  · rw [h]
  · have h1 : (s == t) = false := by
      simp only [beq_eq_false_iff_ne, ne_eq]
      exact h
    have h2 : (t == s) = false := by
      simp only [beq_eq_false_iff_ne, ne_eq]
      exact fun hh => h hh.symm
    rw [h1, h2]

/-- Bundle.__eq__ is symmetric. -/
lemma eqB_symm (a b : Bundle) : Bundle.eqB a b = Bundle.eqB b a := by
  unfold Bundle.eqB
  by_cases h : a.csvOperatorNameD = b.csvOperatorNameD
  · rw [if_neg (not_not_intro h), if_neg (not_not_intro h.symm)]
    rcases h1 : parseSemver (lstripV a.csvOperatorVersionD) with _ | sa <;>
      rcases h2 : parseSemver (lstripV b.csvOperatorVersionD) with _ | sb
    · exact strBeq_symm _ _
    · exact strBeq_symm _ _
    · exact strBeq_symm _ _
    · unfold svEqB
      exact Bool.and_comm _ _
  · rw [if_pos h, if_pos (fun hh => h hh.symm)]

/-- Python set/dict key identity for bundles is symmetric. -/
lemma pyKeyMatch_symm (a b : Bundle) : pyKeyMatch a b = pyKeyMatch b a := by
  unfold pyKeyMatch
  rw [eqB_symm]
  congr 1
  exact decide_eq_decide.mpr eq_comm

/-- Inserting a key-fresh element into a Python set appends it. -/
lemma pySetInsert_of_fresh (acc : List Bundle) (b : Bundle)
    (h : ∀ x ∈ acc, pyKeyMatch x b = false) : pySetInsert acc b = acc ++ [b] := by
  unfold pySetInsert
  rw [if_neg]
  simp only [List.any_eq_true, not_exists]
  intro x
  rintro ⟨hx, hmatch⟩
  rw [h x hx] at hmatch
  exact Bool.false_ne_true hmatch

lemma mem_pySetInsert (acc : List Bundle) (b x : Bundle) :
    x ∈ pySetInsert acc b → x ∈ acc ∨ x = b := by
  unfold pySetInsert
  by_cases hany : acc.any (fun y => pyKeyMatch y b) = true
  · rw [if_pos hany]
    exact Or.inl
  · rw [if_neg hany]
    intro h
    rcases List.mem_append.mp h with h1 | h1
    · exact Or.inl h1
    · exact Or.inr (List.mem_singleton.mp h1)

lemma mem_foldl_pySetInsert (xs : List Bundle) :
    ∀ (acc : List Bundle) (x : Bundle), x ∈ xs.foldl pySetInsert acc → x ∈ acc ∨ x ∈ xs := by
  induction xs with
  | nil => intro acc x h; exact Or.inl h
  | cons b rest ih =>
    intro acc x h
    rw [List.foldl_cons] at h
    rcases ih (pySetInsert acc b) x h with h1 | h1
    · rcases mem_pySetInsert acc b x h1 with h2 | h2
      · exact Or.inl h2
      · exact Or.inr (h2 ▸ List.mem_cons_self b rest)
    · exact Or.inr (List.mem_cons_of_mem b h1)

/-- Every element of the Python set came from the source list. -/
lemma pyDedup_subset (l : List Bundle) (x : Bundle) (h : x ∈ pyDedup l) : x ∈ l := by
  rcases mem_foldl_pySetInsert l [] x h with h1 | h1
  · exact absurd h1 (List.not_mem_nil x)
  · exact h1

/-- The elements of a Python set are pairwise key-distinct. -/
lemma foldl_pySetInsert_pairwise (xs : List Bundle) :
    ∀ (acc : List Bundle), acc.Pairwise (fun a b => pyKeyMatch a b = false) →
      (xs.foldl pySetInsert acc).Pairwise (fun a b => pyKeyMatch a b = false) := by
  induction xs with
  | nil => intro acc h; exact h
  | cons b rest ih =>
    intro acc h
    rw [List.foldl_cons]
    apply ih
    by_cases hany : acc.any (fun y => pyKeyMatch y b) = true
    · unfold pySetInsert
      rw [if_pos hany]
      exact h
    · unfold pySetInsert
      rw [if_neg hany]
      rw [List.pairwise_append]
      refine ⟨h, List.pairwise_singleton _ _, ?_⟩
      intro x hx y hy
      rw [List.mem_singleton] at hy
      simp only [List.any_eq_true, not_exists] at hany
      have hxb := hany x
      cases hmatch : pyKeyMatch x b with
      | false =>
        rw [hy]
        exact hmatch
      | true => exact absurd ⟨hx, hmatch⟩ hxb

lemma pyDedup_pairwise (l : List Bundle) :
    (pyDedup l).Pairwise (fun a b => pyKeyMatch a b = false) :=
  foldl_pySetInsert_pairwise l [] (List.Pairwise.nil)

/-- Folding fresh, pairwise key-distinct elements into a set appends them
all. -/
lemma foldl_pySetInsert_fresh (xs : List Bundle) :
    ∀ (acc : List Bundle), (∀ a ∈ acc, ∀ b ∈ xs, pyKeyMatch a b = false) →
      xs.Pairwise (fun a b => pyKeyMatch a b = false) →
      xs.foldl pySetInsert acc = acc ++ xs := by
  induction xs with
  | nil => intro acc _ _; simp
  | cons b rest ih =>
    intro acc hax hxs
    rw [List.foldl_cons,
      pySetInsert_of_fresh acc b (fun x hx => hax x hx b (List.mem_cons_self b rest))]
    obtain ⟨hb, hrest⟩ := List.pairwise_cons.mp hxs
    rw [ih (acc ++ [b]) ?_ hrest]
    · simp
    · intro a ha c hc
      rcases List.mem_append.mp ha with h1 | h1
      · exact hax a h1 c (List.mem_cons_of_mem b hc)
      · rcases List.mem_singleton.mp h1 with rfl
        exact hb c hc

/-- pyDedup is the identity on pairwise key-distinct lists. -/
lemma pyDedup_of_pairwise (l : List Bundle)
    (h : l.Pairwise (fun a b => pyKeyMatch a b = false)) : pyDedup l = l := by
  unfold pyDedup
  rw [foldl_pySetInsert_fresh l [] (by simp) h]
  simp

/-- The channel bundle list is pairwise key-distinct. -/
lemma channelBundles_pairwise (o : Operator) (channel : String) :
    (o.channelBundles channel).Pairwise (fun a b => pyKeyMatch a b = false) := by
  unfold Operator.channelBundles
  have hsymm : Symmetric (fun a b : Bundle => pyKeyMatch a b = false) := by
    intro a b h
    rw [pyKeyMatch_symm]
    exact h
  have hperm := List.mergeSort_perm
    (pyDedup (o.bundles.filter (fun b => b.channels.contains channel))) Bundle.leB
  exact (List.Perm.pairwise_iff (fun {x y} h => hsymm h) hperm).mpr (pyDedup_pairwise _)

/-- Re-building a set from the channel bundle list is the identity. -/
lemma channelBundles_pyDedup (o : Operator) (channel : String) :
    pyDedup (o.channelBundles channel) = o.channelBundles channel :=
  pyDedup_of_pairwise _ (channelBundles_pairwise o channel)

lemma mem_dictInsertStr (d : List (String × Bundle)) (k : String) (v : Bundle)
    (k' : String) (v' : Bundle) :
    (k', v') ∈ dictInsertStr d k v → (k', v') ∈ d ∨ v' = v := by
  induction d with
  | nil =>
    intro h
    exact Or.inr (congrArg Prod.snd (List.mem_singleton.mp h))
  | cons e rest ih =>
    intro h
    unfold dictInsertStr at h
    by_cases hk : e.1 = k
    · rw [if_pos hk] at h
      rcases List.mem_cons.mp h with h1 | h1
      · exact Or.inr (congrArg Prod.snd h1)
      · exact Or.inl (List.mem_cons_of_mem e h1)
    · rw [if_neg hk] at h
      rcases List.mem_cons.mp h with h1 | h1
      · exact Or.inl (h1 ▸ List.mem_cons_self e rest)
      · rcases ih h1 with h2 | h2
        · exact Or.inl (List.mem_cons_of_mem e h2)
        · exact Or.inr h2

lemma mem_foldl_dictInsertStr (xs : List Bundle) :
    ∀ (d : List (String × Bundle)) (k' : String) (v' : Bundle),
      (k', v') ∈ xs.foldl (fun d b => dictInsertStr d b.csvOperatorVersionD b) d →
      (k', v') ∈ d ∨ v' ∈ xs := by
  induction xs with
  | nil => intro d k' v' h; exact Or.inl h
  | cons b rest ih =>
    intro d k' v' h
    rw [List.foldl_cons] at h
    rcases ih _ k' v' h with h1 | h1
    · rcases mem_dictInsertStr _ _ _ _ _ h1 with h2 | h2
      · exact Or.inl h2
      · exact Or.inr (h2 ▸ List.mem_cons_self b rest)
    · exact Or.inr (List.mem_cons_of_mem b h1)

lemma indexFind_some (d : List (String × Bundle)) (k : String) (t : Bundle)
    (h : indexFind d k = some t) : ∃ k', (k', t) ∈ d := by
  unfold indexFind at h
  cases hf : d.find? (fun e => e.1 = k) with
  | none =>
    rw [hf] at h
    exact absurd h (by exact Option.noConfusion)
  | some e =>
    rw [hf] at h
    have ht : e.2 = t := Option.some.inj h
    refine ⟨e.1, ?_⟩
    have hm := List.mem_of_find?_eq_some hf
    rw [← ht]
    exact hm

lemma mem_of_indexFind (l : List Bundle) (k : String) (t : Bundle)
    (h : indexFind (buildVersionIndex l) k = some t) : t ∈ l := by
  obtain ⟨k', hk'⟩ := indexFind_some _ _ _ h
  rcases mem_foldl_dictInsertStr l [] k' t hk' with h1 | h1
  · exact absurd h1 (List.not_mem_nil _)
  · exact h1

/-- A reference that makes the replaces loop raise: either it lacks a dot
or its operator part (before the first dot) differs from the bundle's CSV
operator name. -/
def RefViolation (b : Bundle) (s : String) : Prop :=
  splitOnce s '.' = none ∨ ∃ p, splitOnce s '.' = some p ∧ p.1 ≠ b.csvOperatorNameD

lemma processRef_none (channel : String) (v2b : List (String × Bundle)) (b : Bundle)
    (edges : Graph) : processRef channel v2b b edges none = Except.ok edges := rfl

lemma processRef_nodot (channel : String) (v2b : List (String × Bundle)) (b : Bundle)
    (edges : Graph) (s : String) (h : splitOnce s '.' = none) :
    processRef channel v2b b edges (some s) = Except.error (PyErr.valueError (fmtBadRef b s)) := by
  unfold processRef
  dsimp only
  rw [h]

lemma processRef_mismatch (channel : String) (v2b : List (String × Bundle)) (b : Bundle)
    (edges : Graph) (s : String) (p : String × String)
    (hp : splitOnce s '.' = some p) (hne : p.1 ≠ b.csvOperatorNameD) :
    processRef channel v2b b edges (some s) = Except.error (PyErr.valueError (fmtCrossOp b)) := by
  unfold processRef
  dsimp only
  rw [hp]
  dsimp only
  rw [if_pos hne]

lemma processRef_dangling (channel : String) (v2b : List (String × Bundle)) (b : Bundle)
    (edges : Graph) (s : String) (p : String × String)
    (hp : splitOnce s '.' = some p) (heq : p.1 = b.csvOperatorNameD)
    (hfind : indexFind v2b (lstripV p.2) = none) :
    processRef channel v2b b edges (some s) = Except.ok edges := by
  unfold processRef
  dsimp only
  rw [hp]
  dsimp only
  rw [if_neg (not_not_intro heq), hfind]

lemma processRef_found (channel : String) (v2b : List (String × Bundle)) (b : Bundle)
    (edges : Graph) (s : String) (p : String × String) (replaced : Bundle)
    (hp : splitOnce s '.' = some p) (heq : p.1 = b.csvOperatorNameD)
    (hfind : indexFind v2b (lstripV p.2) = some replaced) :
    processRef channel v2b b edges (some s)
      = if b.channels.contains channel && replaced.channels.contains channel then
          Except.ok (graphAdd edges replaced b)
        else Except.ok edges := by
  unfold processRef
  dsimp only
  rw [hp]
  dsimp only
  rw [if_neg (not_not_intro heq), hfind]

/-- Invariant of the edge dict built by the replaces loop: every key was
obtained from the version index and carries the channel; every successor
is a member of the bundle set and carries the channel. -/
def GraphInv (channel : String) (v2b : List (String × Bundle)) (bset : List Bundle)
    (g : Graph) : Prop :=
  ∀ p ∈ g, ((∃ k, indexFind v2b k = some p.1) ∧ p.1.channels.contains channel = true) ∧
    ∀ s ∈ p.2, s ∈ bset ∧ s.channels.contains channel = true

lemma graphAdd_inv (channel : String) (v2b : List (String × Bundle)) (bset : List Bundle)
    (g : Graph) (k v : Bundle)
    (hg : GraphInv channel v2b bset g)
    (hk : (∃ key, indexFind v2b key = some k) ∧ k.channels.contains channel = true)
    (hv : v ∈ bset ∧ v.channels.contains channel = true) :
    GraphInv channel v2b bset (graphAdd g k v) := by
  induction g with
  | nil =>
    intro p hp
    rcases List.mem_singleton.mp hp with rfl
    refine ⟨hk, ?_⟩
    intro s hs
    rcases List.mem_singleton.mp hs with rfl
    exact hv
  | cons e rest ih =>
    unfold graphAdd
    by_cases hm : pyKeyMatch e.1 k = true
    · rw [if_pos hm]
      intro p hp
      rcases List.mem_cons.mp hp with h1 | h1
      · subst h1
        refine ⟨(hg e (List.mem_cons_self e rest)).1, ?_⟩
        intro s hs
        rcases mem_pySetInsert _ _ _ hs with h2 | h2
        · exact (hg e (List.mem_cons_self e rest)).2 s h2
        · exact h2 ▸ hv
      · exact hg p (List.mem_cons_of_mem e h1)
    · rw [if_neg hm]
      intro p hp
      rcases List.mem_cons.mp hp with h1 | h1
      · exact h1 ▸ hg e (List.mem_cons_self e rest)
      · exact ih (fun q hq => hg q (List.mem_cons_of_mem e hq)) p h1

lemma processRef_ok_inv (channel : String) (v2b : List (String × Bundle)) (bset : List Bundle)
    (b : Bundle) (edges : Graph) (r : Option String) (g : Graph)
    (hb : b ∈ bset) (hinv : GraphInv channel v2b bset edges)
    (h : processRef channel v2b b edges r = Except.ok g) :
    GraphInv channel v2b bset g := by
  cases r with
  | none =>
    rw [processRef_none] at h
    exact Except.ok.inj h ▸ hinv
  | some s =>
    cases hsp : splitOnce s '.' with
    | none =>
      rw [processRef_nodot channel v2b b edges s hsp] at h
      exact absurd h (by exact Except.noConfusion)
    | some p =>
      by_cases hne : p.1 = b.csvOperatorNameD
      · cases hfind : indexFind v2b (lstripV p.2) with
        | none =>
          rw [processRef_dangling channel v2b b edges s p hsp hne hfind] at h
          exact Except.ok.inj h ▸ hinv
        | some replaced =>
          rw [processRef_found channel v2b b edges s p replaced hsp hne hfind] at h
          by_cases hguard : (b.channels.contains channel && replaced.channels.contains channel) = true
          · rw [if_pos hguard] at h
            obtain ⟨hg1, hg2⟩ := Bool.and_eq_true .. |>.mp hguard
            refine Except.ok.inj h ▸ graphAdd_inv channel v2b bset edges replaced b hinv
              ⟨⟨lstripV p.2, hfind⟩, hg2⟩ ⟨hb, hg1⟩
          · rw [if_neg hguard] at h
            exact Except.ok.inj h ▸ hinv
      · rw [processRef_mismatch channel v2b b edges s p hsp hne] at h
        exact absurd h (by exact Except.noConfusion)

lemma processRef_ok_no_violation (channel : String) (v2b : List (String × Bundle))
    (b : Bundle) (edges : Graph) (r : Option String) (g : Graph)
    (h : processRef channel v2b b edges r = Except.ok g) :
    ∀ s, r = some s → ¬ RefViolation b s := by
  intro s hr hviol
  subst hr
  rcases hviol with hnd | ⟨p, hp, hne⟩
  · rw [processRef_nodot channel v2b b edges s hnd] at h
    exact Except.noConfusion h
  · rw [processRef_mismatch channel v2b b edges s p hp hne] at h
    exact Except.noConfusion h

lemma processRef_error_shape (channel : String) (v2b : List (String × Bundle))
    (b : Bundle) (edges : Graph) (r : Option String) (e : PyErr)
    (h : processRef channel v2b b edges r = Except.error e) :
    ∃ s, r = some s ∧
      ((splitOnce s '.' = none ∧ e = PyErr.valueError (fmtBadRef b s)) ∨
       ((∃ p, splitOnce s '.' = some p ∧ p.1 ≠ b.csvOperatorNameD) ∧
         e = PyErr.valueError (fmtCrossOp b))) := by
  cases r with
  | none =>
    rw [processRef_none] at h
    exact absurd h (by exact Except.noConfusion)
  | some s =>
    refine ⟨s, rfl, ?_⟩
    cases hsp : splitOnce s '.' with
    | none =>
      rw [processRef_nodot channel v2b b edges s hsp] at h
      exact Or.inl ⟨rfl, (Except.error.inj h).symm⟩
    | some p =>
      by_cases hne : p.1 = b.csvOperatorNameD
      · cases hfind : indexFind v2b (lstripV p.2) with
        | none =>
          rw [processRef_dangling channel v2b b edges s p hsp hne hfind] at h
          exact absurd h (by exact Except.noConfusion)
        | some replaced =>
          rw [processRef_found channel v2b b edges s p replaced hsp hne hfind] at h
          by_cases hguard : (b.channels.contains channel && replaced.channels.contains channel) = true
          · rw [if_pos hguard] at h
            exact absurd h (by exact Except.noConfusion)
          · rw [if_neg hguard] at h
            exact absurd h (by exact Except.noConfusion)
      · rw [processRef_mismatch channel v2b b edges s p hsp hne] at h
        exact Or.inr ⟨⟨p, rfl, hne⟩, (Except.error.inj h).symm⟩

lemma processRef_ok_of_wf (channel : String) (v2b : List (String × Bundle))
    (b : Bundle) (edges : Graph) (r : Option String)
    (hwf : ∀ s, r = some s → ¬ RefViolation b s) :
    ∃ g, processRef channel v2b b edges r = Except.ok g := by
  cases r with
  | none => exact ⟨edges, processRef_none channel v2b b edges⟩
  | some s =>
    cases hsp : splitOnce s '.' with
    | none => exact absurd (Or.inl hsp) (hwf s rfl)
    | some p =>
      by_cases hne : p.1 = b.csvOperatorNameD
      · cases hfind : indexFind v2b (lstripV p.2) with
        | none => exact ⟨edges, processRef_dangling channel v2b b edges s p hsp hne hfind⟩
        | some replaced =>
          by_cases hguard : (b.channels.contains channel && replaced.channels.contains channel) = true
          · refine ⟨graphAdd edges replaced b, ?_⟩
            rw [processRef_found channel v2b b edges s p replaced hsp hne hfind, if_pos hguard]
          · refine ⟨edges, ?_⟩
            rw [processRef_found channel v2b b edges s p replaced hsp hne hfind, if_neg hguard]
      · exact absurd (Or.inr ⟨p, hsp, hne⟩) (hwf s rfl)

lemma processRefs_ok_inv (channel : String) (v2b : List (String × Bundle)) (bset : List Bundle)
    (b : Bundle) (hb : b ∈ bset) :
    ∀ (refs : List (Option String)) (edges g : Graph),
      GraphInv channel v2b bset edges →
      processRefs channel v2b b refs edges = Except.ok g →
      GraphInv channel v2b bset g := by
  intro refs
  induction refs with
  | nil =>
    intro edges g hinv h
    exact Except.ok.inj h ▸ hinv
  | cons r rest ih =>
    intro edges g hinv h
    unfold processRefs at h
    cases hpr : processRef channel v2b b edges r with
    | error e => rw [hpr] at h; exact absurd h (by exact Except.noConfusion)
    | ok e2 =>
      rw [hpr] at h
      exact ih e2 g (processRef_ok_inv channel v2b bset b edges r e2 hb hinv hpr) h

lemma processRefs_ok_no_violation (channel : String) (v2b : List (String × Bundle))
    (b : Bundle) :
    ∀ (refs : List (Option String)) (edges g : Graph),
      processRefs channel v2b b refs edges = Except.ok g →
      ∀ r ∈ refs, ∀ s, r = some s → ¬ RefViolation b s := by
  intro refs
  induction refs with
  | nil => intro edges g _ r hr; exact absurd hr (List.not_mem_nil r)
  | cons r0 rest ih =>
    intro edges g h r hr
    unfold processRefs at h
    cases hpr : processRef channel v2b b edges r0 with
    | error e => rw [hpr] at h; exact absurd h (by exact Except.noConfusion)
    | ok e2 =>
      rw [hpr] at h
      rcases List.mem_cons.mp hr with h1 | h1
      · exact h1 ▸ processRef_ok_no_violation channel v2b b edges r0 e2 hpr
      · exact ih e2 g h r h1

lemma processRefs_error_shape (channel : String) (v2b : List (String × Bundle))
    (b : Bundle) :
    ∀ (refs : List (Option String)) (edges : Graph) (e : PyErr),
      processRefs channel v2b b refs edges = Except.error e →
      ∃ r ∈ refs, ∃ s, r = some s ∧
        ((splitOnce s '.' = none ∧ e = PyErr.valueError (fmtBadRef b s)) ∨
         ((∃ p, splitOnce s '.' = some p ∧ p.1 ≠ b.csvOperatorNameD) ∧
           e = PyErr.valueError (fmtCrossOp b))) := by
  intro refs
  induction refs with
  | nil =>
    intro edges e h
    exact absurd h (by exact Except.noConfusion)
  | cons r0 rest ih =>
    intro edges e h
    unfold processRefs at h
    cases hpr : processRef channel v2b b edges r0 with
    | error e0 =>
      rw [hpr] at h
      have he := Except.error.inj h
      obtain ⟨s, hs, hshape⟩ := processRef_error_shape channel v2b b edges r0 e0 hpr
      exact ⟨r0, List.mem_cons_self r0 rest, s, hs, he ▸ hshape⟩
    | ok e2 =>
      rw [hpr] at h
      obtain ⟨r, hr, s, hs, hshape⟩ := ih e2 e h
      exact ⟨r, List.mem_cons_of_mem r0 hr, s, hs, hshape⟩

lemma processRefs_ok_of_wf (channel : String) (v2b : List (String × Bundle)) (b : Bundle) :
    ∀ (refs : List (Option String)) (edges : Graph),
      (∀ r ∈ refs, ∀ s, r = some s → ¬ RefViolation b s) →
      ∃ g, processRefs channel v2b b refs edges = Except.ok g := by
  intro refs
  induction refs with
  | nil => intro edges _; exact ⟨edges, rfl⟩
  | cons r0 rest ih =>
    intro edges hwf
    obtain ⟨g0, hg0⟩ := processRef_ok_of_wf channel v2b b edges r0
      (hwf r0 (List.mem_cons_self r0 rest))
    obtain ⟨g, hg⟩ := ih g0 (fun r hr => hwf r (List.mem_cons_of_mem r0 hr))
    refine ⟨g, ?_⟩
    unfold processRefs
    rw [hg0]
    exact hg

lemma processBundles_ok_inv (channel : String) (v2b : List (String × Bundle)) (bset : List Bundle) :
    ∀ (bs : List Bundle) (edges g : Graph),
      (∀ b ∈ bs, b ∈ bset) →
      GraphInv channel v2b bset edges →
      processBundles channel v2b bs edges = Except.ok g →
      GraphInv channel v2b bset g := by
  intro bs
  induction bs with
  | nil =>
    intro edges g _ hinv h
    exact Except.ok.inj h ▸ hinv
  | cons b rest ih =>
    intro edges g hbs hinv h
    unfold processBundles at h
    cases hpr : processRefs channel v2b b b.previousRefs edges with
    | error e => rw [hpr] at h; exact absurd h (by exact Except.noConfusion)
    | ok e2 =>
      rw [hpr] at h
      exact ih e2 g (fun x hx => hbs x (List.mem_cons_of_mem b hx))
        (processRefs_ok_inv channel v2b bset b (hbs b (List.mem_cons_self b rest))
          b.previousRefs edges e2 hinv hpr) h

lemma processBundles_ok_no_violation (channel : String) (v2b : List (String × Bundle)) :
    ∀ (bs : List Bundle) (edges g : Graph),
      processBundles channel v2b bs edges = Except.ok g →
      ∀ b ∈ bs, ∀ r ∈ b.previousRefs, ∀ s, r = some s → ¬ RefViolation b s := by
  intro bs
  induction bs with
  | nil => intro edges g _ b hb; exact absurd hb (List.not_mem_nil b)
  | cons b0 rest ih =>
    intro edges g h b hb
    unfold processBundles at h
    cases hpr : processRefs channel v2b b0 b0.previousRefs edges with
    | error e => rw [hpr] at h; exact absurd h (by exact Except.noConfusion)
    | ok e2 =>
      rw [hpr] at h
      rcases List.mem_cons.mp hb with h1 | h1
      · exact h1 ▸ processRefs_ok_no_violation channel v2b b0 b0.previousRefs edges e2 hpr
      · exact ih e2 g h b h1

lemma processBundles_error_shape (channel : String) (v2b : List (String × Bundle)) :
    ∀ (bs : List Bundle) (edges : Graph) (e : PyErr),
      processBundles channel v2b bs edges = Except.error e →
      ∃ b ∈ bs, ∃ s, (some s) ∈ b.previousRefs ∧
        ((splitOnce s '.' = none ∧ e = PyErr.valueError (fmtBadRef b s)) ∨
         ((∃ p, splitOnce s '.' = some p ∧ p.1 ≠ b.csvOperatorNameD) ∧
           e = PyErr.valueError (fmtCrossOp b))) := by
  intro bs
  induction bs with
  | nil =>
    intro edges e h
    exact absurd h (by exact Except.noConfusion)
  | cons b0 rest ih =>
    intro edges e h
    unfold processBundles at h
    cases hpr : processRefs channel v2b b0 b0.previousRefs edges with
    | error e0 =>
      rw [hpr] at h
      have he := Except.error.inj h
      obtain ⟨r, hr, s, hs, hshape⟩ := processRefs_error_shape channel v2b b0
        b0.previousRefs edges e0 hpr
      exact ⟨b0, List.mem_cons_self b0 rest, s, hs ▸ hr, he ▸ hshape⟩
    | ok e2 =>
      rw [hpr] at h
      obtain ⟨b, hb, s, hs, hshape⟩ := ih e2 e h
      exact ⟨b, List.mem_cons_of_mem b0 hb, s, hs, hshape⟩

lemma processBundles_ok_of_wf (channel : String) (v2b : List (String × Bundle)) :
    ∀ (bs : List Bundle) (edges : Graph),
      (∀ b ∈ bs, ∀ r ∈ b.previousRefs, ∀ s, r = some s → ¬ RefViolation b s) →
      ∃ g, processBundles channel v2b bs edges = Except.ok g := by
  intro bs
  induction bs with
  | nil => intro edges _; exact ⟨edges, rfl⟩
  | cons b0 rest ih =>
    intro edges hwf
    obtain ⟨g0, hg0⟩ := processRefs_ok_of_wf channel v2b b0 b0.previousRefs edges
      (hwf b0 (List.mem_cons_self b0 rest))
    obtain ⟨g, hg⟩ := ih g0 (fun b hb => hwf b (List.mem_cons_of_mem b0 hb))
    refine ⟨g, ?_⟩
    unfold processBundles
    rw [hg0]
    exact hg

instance refViolationDecidable (b : Bundle) (s : String) : Decidable (RefViolation b s) :=
  match h : splitOnce s '.' with
  | none => isTrue (Or.inl h)
  | some p =>
    if hne : p.1 = b.csvOperatorNameD then
      isFalse (by
        rintro (h1 | ⟨q, hq, hqne⟩)
        · rw [h] at h1
          exact Option.noConfusion h1
        · rw [h] at hq
          exact hqne ((Option.some.inj hq) ▸ hne))
    else isTrue (Or.inr ⟨p, h, hne⟩)

/-- Unfolding of update_graph in replaces-mode (the ci.yaml updateGraph
key absent or equal to replaces-mode), on a channel whose bundles all
have well-formed CSV names agreeing on one operator name. -/
lemma updateGraph_replaces_eq (o : Operator) (channel : String) (pairs : List (String × String))
    (hstrat : o.config_update_graph = none ∨ o.config_update_graph = some "replaces-mode")
    (hwf : (o.channelBundles channel).mapM Bundle.csvFullName = Except.ok pairs)
    (hone : ((pairs.map Prod.fst).dedup).length ≤ 1) :
    o.updateGraph channel = replacesGraph channel (o.channelBundles channel) := by
  unfold Operator.updateGraph
  dsimp only
  rcases hstrat with hs | hs <;>
    rw [hwf, hs] <;>
    simp only [Option.getD_some, Option.getD_none] <;>
    rw [if_neg (by omega)] <;>
    simp

/-- Claim C2: in replaces-mode, update_graph is lenient about dangling
references: when every non-null replaces/skips reference of every channel
bundle is well-formed (has a dot and names this operator), the call
succeeds even if some referenced versions resolve to no bundle of the
channel; and every edge of the returned mapping goes from a replaced
bundle to a replacing bundle that are both members of the channel bundle
list and both carry the channel in their channel sets, the replaced
bundle being the resolution of some version in the channel's
bundle-by-version index (so an unresolvable reference contributes no
edge). -/
theorem C2_replaces_mode_leniency (o : Operator) (channel : String)
    (pairs : List (String × String))
    (hstrat : o.config_update_graph = none ∨ o.config_update_graph = some "replaces-mode")
    (hwf : (o.channelBundles channel).mapM Bundle.csvFullName = Except.ok pairs)
    (hone : ((pairs.map Prod.fst).dedup).length ≤ 1)
    (hrefs : ∀ b ∈ o.channelBundles channel, ∀ s : String,
      some s ∈ b.previousRefs → ¬ RefViolation b s) :
    (∃ g, o.updateGraph channel = Except.ok g) ∧
    (∀ g, o.updateGraph channel = Except.ok g →
      ∀ p ∈ g, (p.1 ∈ o.channelBundles channel ∧ p.1.channels.contains channel = true ∧
          (∃ k, indexFind (buildVersionIndex (o.channelBundles channel)) k = some p.1)) ∧
        ∀ s ∈ p.2, s ∈ o.channelBundles channel ∧ s.channels.contains channel = true) := by
  have heq := updateGraph_replaces_eq o channel pairs hstrat hwf hone
  have hdd := channelBundles_pyDedup o channel
  constructor
  · rw [heq]
    unfold replacesGraph
    dsimp only
    rw [hdd]
    exact processBundles_ok_of_wf channel _ _ []
      (fun b hb r hr s hs => hrefs b hb s (hs ▸ hr))
  · intro g hg p hp
    rw [heq] at hg
    unfold replacesGraph at hg
    dsimp only at hg
    rw [hdd] at hg
    have hinv := processBundles_ok_inv channel
      (buildVersionIndex (o.channelBundles channel)) (o.channelBundles channel)
      (o.channelBundles channel) [] g (fun b hb => hb)
      (fun q hq => absurd hq (List.not_mem_nil q)) hg
    obtain ⟨⟨hkex, hkch⟩, hsucc⟩ := hinv p hp
    obtain ⟨k, hk⟩ := hkex
    exact ⟨⟨mem_of_indexFind _ _ _ hk, hkch, ⟨k, hk⟩⟩, hsucc⟩

/-- Claim C3: in replaces-mode, any non-null replaces/skips reference of a
channel bundle that lacks a dot, or whose operator part differs from the
bundle's CSV operator name, makes update_graph raise a hard ValueError;
the raised error is the format error for an actual dotless reference of a
channel bundle or the cross-operator error for an actual mismatched
reference of a channel bundle (so when only one kind of violation is
present, the error is of that kind). -/
theorem C3_replaces_mode_hard_errors (o : Operator) (channel : String)
    (pairs : List (String × String))
    (hstrat : o.config_update_graph = none ∨ o.config_update_graph = some "replaces-mode")
    (hwf : (o.channelBundles channel).mapM Bundle.csvFullName = Except.ok pairs)
    (hone : ((pairs.map Prod.fst).dedup).length ≤ 1)
    (b : Bundle) (hb : b ∈ o.channelBundles channel) (s : String)
    (hs : some s ∈ b.previousRefs) (hviol : RefViolation b s) :
    ∃ e, o.updateGraph channel = Except.error e ∧
      ∃ b2 ∈ o.channelBundles channel, ∃ s2, some s2 ∈ b2.previousRefs ∧
        ((splitOnce s2 '.' = none ∧ e = PyErr.valueError (fmtBadRef b2 s2)) ∨
         ((∃ p, splitOnce s2 '.' = some p ∧ p.1 ≠ b2.csvOperatorNameD) ∧
           e = PyErr.valueError (fmtCrossOp b2))) := by
  have heq := updateGraph_replaces_eq o channel pairs hstrat hwf hone
  have hdd := channelBundles_pyDedup o channel
  rw [heq]
  unfold replacesGraph
  dsimp only
  rw [hdd]
  cases hres : processBundles channel (buildVersionIndex (o.channelBundles channel))
      (o.channelBundles channel) [] with
  | ok g =>
    exact absurd hviol
      (processBundles_ok_no_violation channel _ _ [] g hres b hb (some s) hs s rfl)
  | error e =>
    obtain ⟨b2, hb2, s2, hs2, hshape⟩ := processBundles_error_shape channel _ _ [] e hres
    exact ⟨e, rfl, b2, hb2, s2, hs2, hshape⟩

/-- A replaces-mode operator: 0.0.2 replaces 0.0.1, 0.0.3 replaces a
version the operator does not contain (a dangling reference). -/
def bRep1 : Bundle := ⟨"testop", "0.0.1", "testop.v0.0.1", some "stable", none, none, []⟩

def bRep2 : Bundle :=
  ⟨"testop", "0.0.2", "testop.v0.0.2", some "stable", none, some "testop.v0.0.1", []⟩

def bRep3 : Bundle :=
  ⟨"testop", "0.0.3", "testop.v0.0.3", some "stable", none, some "testop.v9.9.9", []⟩

def opReplEx : Operator := ⟨"testop", [bRep1, bRep2, bRep3], none⟩

lemma chanOpReplEx : Operator.channelBundles opReplEx "stable" = [bRep1, bRep2, bRep3] := by
  unfold Operator.channelBundles
  rw [show pyDedup (List.filter (fun b => b.channels.contains "stable") opReplEx.bundles)
      = [bRep1, bRep2, bRep3] from by decide]
  exact List.mergeSort_of_sorted (by decide)

/-- Per-reference well-formedness, in a shape decidable for concrete
bundles. -/
def RefOk (b : Bundle) : Option String → Prop
  | none => True
  | some s => ¬ RefViolation b s

instance refOkDecidable (b : Bundle) : DecidablePred (RefOk b) := fun r =>
  match r with
  | none => isTrue trivial
  | some s => inferInstanceAs (Decidable (¬ RefViolation b s))

lemma refs_wf_of_refOk (b : Bundle) (h : ∀ r ∈ b.previousRefs, RefOk b r) :
    ∀ s, some s ∈ b.previousRefs → ¬ RefViolation b s :=
  fun s hs => h (some s) hs

theorem C2_replaces_mode_leniency_witness :
    (∃ g, Operator.updateGraph opReplEx "stable" = Except.ok g) ∧
    (∀ g, Operator.updateGraph opReplEx "stable" = Except.ok g →
      ∀ p ∈ g, (p.1 ∈ Operator.channelBundles opReplEx "stable" ∧
          p.1.channels.contains "stable" = true ∧
          (∃ k, indexFind (buildVersionIndex (Operator.channelBundles opReplEx "stable")) k
            = some p.1)) ∧
        ∀ s ∈ p.2, s ∈ Operator.channelBundles opReplEx "stable" ∧
          s.channels.contains "stable" = true) := by
  exact C2_replaces_mode_leniency opReplEx "stable"
    [("testop", "0.0.1"), ("testop", "0.0.2"), ("testop", "0.0.3")]
    (Or.inl rfl) (by rw [chanOpReplEx]; decide) (by decide)
    (by
      rw [chanOpReplEx]
      intro b hb
      fin_cases hb <;> exact refs_wf_of_refOk _ (by decide))

/-- A replaces-mode operator whose single bundle has a dotless replaces
reference. -/
def bViol : Bundle :=
  ⟨"testop", "0.0.1", "testop.v0.0.1", some "stable", none, some "nodotref", []⟩

def opViolEx : Operator := ⟨"testop", [bViol], some "replaces-mode"⟩

lemma chanOpViolEx : Operator.channelBundles opViolEx "stable" = [bViol] := by
  unfold Operator.channelBundles
  rw [show pyDedup (List.filter (fun b => b.channels.contains "stable") opViolEx.bundles)
      = [bViol] from by decide]
  exact List.mergeSort_of_sorted (by decide)

theorem C3_replaces_mode_hard_errors_witness :
    ∃ e, Operator.updateGraph opViolEx "stable" = Except.error e ∧
      ∃ b2 ∈ Operator.channelBundles opViolEx "stable", ∃ s2, some s2 ∈ b2.previousRefs ∧
        ((splitOnce s2 '.' = none ∧ e = PyErr.valueError (fmtBadRef b2 s2)) ∨
         ((∃ p, splitOnce s2 '.' = some p ∧ p.1 ≠ b2.csvOperatorNameD) ∧
           e = PyErr.valueError (fmtCrossOp b2))) := by
  exact C3_replaces_mode_hard_errors opViolEx "stable" [("testop", "0.0.1")]
    (Or.inr rfl) (by rw [chanOpViolEx]; decide) (by decide)
    bViol (by rw [chanOpViolEx]; exact List.mem_singleton.mpr rfl) "nodotref"
    (by decide) (Or.inl (by decide))

/-- In a le-sorted list, every element is le the last element. -/
lemma pairwise_getLast_le {α : Type} (le : α → α → Bool) (hrefl : ∀ a, le a a = true) :
    ∀ (l : List α) (m : α), l.Pairwise (fun a b => le a b = true) → l.getLast? = some m →
      ∀ x ∈ l, le x m = true := by
  intro l
  induction l with
  | nil =>
    intro m _ hm
    exact absurd hm (by exact Option.noConfusion)
  | cons a rest ih =>
    intro m hp hm x hx
    cases rest with
    | nil =>
      have hma : m = a := (Option.some.inj hm).symm
      rcases List.mem_singleton.mp hx with rfl
      rw [hma]
      exact hrefl x
    | cons b rest2 =>
      rw [List.getLast?_cons_cons] at hm
      obtain ⟨ha, hp2⟩ := List.pairwise_cons.mp hp
      rcases List.mem_cons.mp hx with rfl | hx2
      · exact ha m (List.mem_of_mem_getLast? hm)
      · exact ih m hp2 hm x hx2

lemma svPairLe_trans (a b c : Semver × String)
    (hab : svPairLe a b = true) (hbc : svPairLe b c = true) : svPairLe a c = true := by
  unfold svPairLe at hab hbc ⊢
  exact decide_eq_true (le_trans (of_decide_eq_true hab) (of_decide_eq_true hbc))

lemma svPairLe_total (a b : Semver × String) : (svPairLe a b || svPairLe b a) = true := by
  unfold svPairLe
  rcases le_total (toLex (a.1.key, a.2.data)) (toLex (b.1.key, b.2.data)) with h | h
  · rw [decide_eq_true h, Bool.true_or]
  · rw [decide_eq_true h, Bool.or_true]

lemma svPairLe_refl (a : Semver × String) : svPairLe a a = true := by
  unfold svPairLe
  exact decide_eq_true le_rfl

/-- Unfolding of Operator.default_channel when every declaring bundle's
version parses as semver (the try branch succeeds). -/
lemma defaultChannel_semver_eq (o : Operator)
    (hall : (o.declaring.all (fun b => (parseSemver b.csvOperatorVersionD).isSome)) = true) :
    o.defaultChannel = (((o.declaring.filterMap
      (fun b => (parseSemver b.csvOperatorVersionD).map (fun v => (v, dchanStr b)))).mergeSort
        svPairLe).getLast?).map Prod.snd := by
  unfold Operator.defaultChannel
  rw [if_pos hall]

lemma defaultChannel_of_declaring (o : Operator) (b : Bundle) (hb : b ∈ o.declaring) :
    Bundle.defaultChannel b = some (dchanStr b) := by
  unfold Operator.declaring at hb
  have hsome := (List.mem_filter.mp hb).2
  cases h : b.ann_default_channel with
  | none =>
    rw [h] at hsome
    exact absurd hsome (by simp)
  | some s => simp [Bundle.defaultChannel, dchanStr, h]

/-- Operator.default_channel is none exactly when no bundle declares a
default channel (given all declaring versions parse). -/
lemma defaultChannel_none_iff (o : Operator)
    (hparse : ∀ b ∈ o.declaring, (parseSemver b.csvOperatorVersionD).isSome = true) :
    (o.defaultChannel = none ↔ o.declaring = []) := by
  rw [defaultChannel_semver_eq o (List.all_eq_true.mpr hparse)]
  cases hd : o.declaring with
  | nil => simp [List.mergeSort_nil]
  | cons b rest =>
    constructor
    · intro h
      exfalso
      have hbs := hparse b (hd ▸ List.mem_cons_self b rest)
      cases hv : parseSemver b.csvOperatorVersionD with
      | none =>
        rw [hv] at hbs
        exact absurd hbs (by simp)
      | some v =>
        have hmem : (v, dchanStr b) ∈ (b :: rest).filterMap
            (fun b => (parseSemver b.csvOperatorVersionD).map (fun v => (v, dchanStr b))) := by
          refine List.mem_filterMap.mpr ⟨b, List.mem_cons_self b rest, ?_⟩
          rw [hv]
          rfl
        have hmem2 : (v, dchanStr b) ∈ ((b :: rest).filterMap
            (fun b => (parseSemver b.csvOperatorVersionD).map
              (fun v => (v, dchanStr b)))).mergeSort svPairLe :=
          List.mem_mergeSort.mpr hmem
        cases hl : (((b :: rest).filterMap
            (fun b => (parseSemver b.csvOperatorVersionD).map
              (fun v => (v, dchanStr b)))).mergeSort svPairLe).getLast? with
        | none =>
          rw [List.getLast?_eq_none_iff.mp hl] at hmem2
          exact List.not_mem_nil _ hmem2
        | some m =>
          rw [hl] at h
          exact absurd h (by simp)
    · intro h
      exact absurd h (by exact List.noConfusion)

/-- When Operator.default_channel yields a channel, it is the declared
default of a declaring bundle whose (version, channel) pair is maximal. -/
lemma defaultChannel_some_max (o : Operator)
    (hparse : ∀ b ∈ o.declaring, (parseSemver b.csvOperatorVersionD).isSome = true)
    (c : String) (hc : o.defaultChannel = some c) :
    ∃ b ∈ o.declaring, Bundle.defaultChannel b = some c ∧
      ∃ v, parseSemver b.csvOperatorVersionD = some v ∧
        ∀ b2 ∈ o.declaring, ∀ v2, parseSemver b2.csvOperatorVersionD = some v2 →
          svPairLe (v2, dchanStr b2) (v, dchanStr b) = true := by
  rw [defaultChannel_semver_eq o (List.all_eq_true.mpr hparse)] at hc
  obtain ⟨m, hm, hmc⟩ := Option.map_eq_some'.mp hc
  have hm_pairs := List.mem_mergeSort.mp (List.mem_of_mem_getLast? hm)
  obtain ⟨b, hb, hfb⟩ := List.mem_filterMap.mp hm_pairs
  obtain ⟨v, hv, hvm⟩ := Option.map_eq_some'.mp hfb
  refine ⟨b, hb, ?_, v, hv, ?_⟩
  · rw [defaultChannel_of_declaring o b hb,
      show dchanStr b = c from by rw [← hmc, ← hvm]]
  · intro b2 hb2 v2 hv2
    have hmem2 : (v2, dchanStr b2) ∈ o.declaring.filterMap
        (fun b => (parseSemver b.csvOperatorVersionD).map (fun v => (v, dchanStr b))) := by
      refine List.mem_filterMap.mpr ⟨b2, hb2, ?_⟩
      rw [hv2]
      rfl
    have hsorted := List.sorted_mergeSort svPairLe_trans
      (fun a b => svPairLe_total a b)
      (o.declaring.filterMap
        (fun b => (parseSemver b.csvOperatorVersionD).map (fun v => (v, dchanStr b))))
    have hle := pairwise_getLast_le svPairLe svPairLe_refl _ m hsorted hm
      (v2, dchanStr b2) (List.mem_mergeSort.mpr hmem2)
    rw [hvm]
    exact hle

/-- An operator with bundles 0.0.1 (no default), 0.1.0 (default
candidate), 1.0.0 (default stable). -/
def bDef1 : Bundle := ⟨"testop", "0.0.1", "testop.v0.0.1", some "stable", none, none, []⟩

def bDef2 : Bundle :=
  ⟨"testop", "0.1.0", "testop.v0.1.0", some "stable", some "candidate", none, []⟩

def bDef3 : Bundle :=
  ⟨"testop", "1.0.0", "testop.v1.0.0", some "stable", some "stable", none, []⟩

def opDefEx : Operator := ⟨"testop", [bDef1, bDef2, bDef3], none⟩

lemma defaultChannel_opDefEx : Operator.defaultChannel opDefEx = some "stable" := by
  rw [defaultChannel_semver_eq opDefEx (by decide)]
  rw [show (Operator.declaring opDefEx).filterMap
      (fun b => (parseSemver b.csvOperatorVersionD).map (fun v => (v, dchanStr b)))
      = [(⟨0, 1, 0, [], []⟩, "candidate"), (⟨1, 0, 0, [], []⟩, "stable")] from by decide]
  rw [List.mergeSort_of_sorted (by decide)]
  rfl

/-- Two bundles of the same operator (distinct bundle directories) whose
CSVs declare the same version 1.0.0, with default channels alpha and
beta: a tie at the highest version. -/
def bTieA : Bundle :=
  ⟨"testop", "1.0.0", "testop.v1.0.0", some "stable", some "alpha", none, []⟩

def bTieB : Bundle :=
  ⟨"testop", "1.0.0-copy", "testop.v1.0.0", some "stable", some "beta", none, []⟩

def opTieEx : Operator := ⟨"testop", [bTieA, bTieB], none⟩

/-- Claim C6 counterexample: on a tie for the highest version among
default-declaring bundles the claim predicts none, but the code sorts the
(version, channel) tuple pairs, where the tied versions fall through to
the channel strings, and returns the lexicographically greatest channel
(beta), not none. -/
theorem C6_counterexample_tie :
    Bundle.csvOperatorVersionD bTieA = Bundle.csvOperatorVersionD bTieB ∧
    Bundle.defaultChannel bTieA = some "alpha" ∧
    Bundle.defaultChannel bTieB = some "beta" ∧
    Operator.defaultChannel opTieEx = some "beta" ∧
    Operator.defaultChannel opTieEx ≠ none := by
  have hval : Operator.defaultChannel opTieEx = some "beta" := by
    rw [defaultChannel_semver_eq opTieEx (by decide)]
    rw [show (Operator.declaring opTieEx).filterMap
        (fun b => (parseSemver b.csvOperatorVersionD).map (fun v => (v, dchanStr b)))
        = [(⟨1, 0, 0, [], []⟩, "alpha"), (⟨1, 0, 0, [], []⟩, "beta")] from by decide]
    rw [List.mergeSort_of_sorted (by decide)]
    rfl
  refine ⟨by decide, by decide, by decide, hval, ?_⟩
  rw [hval]
  exact Option.noConfusion

/-- Claim C6 amended: default_channel returns none exactly when no bundle
declares a default channel; otherwise it returns the declared default of
a declaring bundle whose (parsed version, declared channel) pair is
maximal under the lexicographic order (so a tie in the highest version is
broken towards the lexicographically greatest channel name rather than
producing none); in particular an operator with bundles 0.0.1 (no
default), 0.1.0 (default candidate), 1.0.0 (default stable) yields
stable.  Stated for operators whose declaring bundles' versions all parse
as semver (the code's semver branch). -/
theorem C6_default_channel_amended (o : Operator)
    (hparse : ∀ b ∈ o.declaring, (parseSemver b.csvOperatorVersionD).isSome = true) :
    (o.defaultChannel = none ↔ o.declaring = []) ∧
    (∀ c, o.defaultChannel = some c →
      ∃ b ∈ o.declaring, Bundle.defaultChannel b = some c ∧
        ∃ v, parseSemver b.csvOperatorVersionD = some v ∧
          ∀ b2 ∈ o.declaring, ∀ v2, parseSemver b2.csvOperatorVersionD = some v2 →
            svPairLe (v2, dchanStr b2) (v, dchanStr b) = true) ∧
    Operator.defaultChannel opDefEx = some "stable" :=
  ⟨defaultChannel_none_iff o hparse,
   fun c hc => defaultChannel_some_max o hparse c hc,
   defaultChannel_opDefEx⟩

theorem C6_default_channel_amended_witness :
    (Operator.defaultChannel opDefEx = none ↔ Operator.declaring opDefEx = []) ∧
    Operator.defaultChannel opDefEx = some "stable" := by
  have h := C6_default_channel_amended opDefEx (by decide)
  exact ⟨h.1, h.2.2⟩
